import Mathlib

/-!
Verification of the page-resident storage core: the B+Tree internal page
format (occupancy header, key/child slots, parent/extra-child/category
trailer), its entry operations, iterators, the page dirty marker, and the
buffer-pool eviction path.

The `Page` dirty-marker mechanics are embedded from the `Page` class source
(`isDirty`/`markDirty`, with `dirty` default-initialized to `nullopt`).
The `BTreeInternalPage` member functions and the `BufferPool` are declared
in the sources but their bodies are not present; those operations are
modelled from the specification, as noted on each definition.
-/

namespace DB

/-- Identity of one page: table/file identifier plus page number. -/
structure BTreePageId where
  tableId : Nat
  pgNo : Nat
deriving DecidableEq

/-- A record locator: the page a persisted entry lives on plus its slot. -/
structure RecordId where
  pid : BTreePageId
  slot : Nat
deriving DecidableEq

/-- An internal-page entry: key, left/right child page numbers, and the
optional locator assigned once the entry is stored on a page. -/
structure BTreeEntry where
  key : Nat
  leftChild : Nat
  rightChild : Nat
  recordId : Option RecordId := none
deriving DecidableEq

/-- Error kinds surfaced by the page operations. -/
inductive DbError where
  | PageFullError
  | BadEntryError
  | InvalidLocatorError
deriving DecidableEq

/-- Embedded from the `Page` class source: the dirty marker is an optional
transaction id, default-initialized to `nullopt` (here `none`). -/
structure Page where
  dirty : Option Nat := none
deriving DecidableEq

/-- Embedded from the `Page` class source: `isDirty` returns the stored
dirty marker. -/
def Page.isDirty (p : Page) : Option Nat := p.dirty

/-- Embedded from the `Page` class source: `markDirty` overwrites the
dirty marker with the given transaction id (or `none` to mark clean). -/
def Page.markDirty (p : Page) (tid : Option Nat) : Page := { p with dirty := tid }

/-- A freshly constructed `Page`, taking the default member initializer. -/
def Page.init : Page := {}

/-- Bytes per page pointer (page-number field), as in the original format. -/
def INDEX_SIZE : Nat := 4

/-- Modelled from the spec: the maximum number of entries of an internal
page of `pageSize` bytes with entries of `entrySize` bytes (key + one child
pointer), where the trailer holds the parent pointer, one extra child
pointer and a one-byte child-category tag, and each entry costs one
occupancy bit beyond its `entrySize * 8` bits. -/
def getMaxEntries (pageSize entrySize : Nat) : Nat :=
  (pageSize * 8 - (2 * INDEX_SIZE * 8 + 8)) / (entrySize * 8 + 1)

/-- Modelled from the spec: the header byte count for `numSlots` entry
slots, computed the way the original code does (divide, then bump when the
division truncated); the spec states this equals `ceil((numSlots + 1)/8)`. -/
def getHeaderSize (numSlots : Nat) : Nat :=
  if ((numSlots + 1) / 8) * 8 < numSlots + 1 then (numSlots + 1) / 8 + 1
  else (numSlots + 1) / 8

/-- Modelled from the spec: the in-memory state of one internal page.
Slot `i` of `keys`/`children` holds the `i`-th key and its right child;
the extra (leftmost) child pointer `child0` lives in the trailer, and the
reserved header bit 0 (`child0used`) records whether it is live.  The
dirty marker is runtime-only state, never serialized. -/
structure BTreeInternalPage where
  pageSize : Nat
  keySize : Nat
  pid : BTreePageId
  parent : Nat
  childCategory : Nat
  child0used : Bool
  child0 : Nat
  occupancy : List Bool
  keys : List Nat
  children : List Nat
  dirty : Option Nat := none
deriving DecidableEq

/-- The number of entry slots of this page, fixed by its geometry. -/
def BTreeInternalPage.numSlots (p : BTreeInternalPage) : Nat :=
  getMaxEntries p.pageSize (p.keySize + INDEX_SIZE)

/-- Pack a list of bits into one byte, bit `i` of the list at weight `2^i`. -/
def byteOfBits (bs : List Bool) : Nat :=
  bs.foldr (fun b acc => (if b then 1 else 0) + 2 * acc) 0

/-- Pack a bit list into bytes, eight bits per byte, zero-padding the tail. -/
def packBits : List Bool → List Nat
  | [] => []
  | b :: rest => byteOfBits (b :: rest.take 7) :: packBits (rest.drop 7)
termination_by l => l.length
decreasing_by
  simp only [List.length_drop, List.length_cons]
  omega

/-- Read `n` bits back out of one byte value, least significant first. -/
def bitsOfByte : Nat → Nat → List Bool
  | 0, _ => []
  | n + 1, v => (v % 2 == 1) :: bitsOfByte n (v / 2)

/-- Read `n` bits out of a byte list, eight bits per byte. -/
def unpackBits : Nat → List Nat → List Bool
  | 0, _ => []
  | _ + 1, [] => []
  | n + 1, v :: rest => bitsOfByte (min (n + 1) 8) v ++ unpackBits (n + 1 - 8) rest

/-- Encode a value into `w` bytes, least significant byte first. -/
def bytesOfNat : Nat → Nat → List Nat
  | 0, _ => []
  | w + 1, v => v % 256 :: bytesOfNat w (v / 256)

/-- Decode a byte list back into a value. -/
def natOfBytes : List Nat → Nat
  | [] => 0
  | b :: rest => b + 256 * natOfBytes rest

/-- Serialize the slot area: for each slot, its key bytes then its child
pointer bytes. -/
def serializeSlots (ks : Nat) : List Nat → List Nat → List Nat
  | [], _ => []
  | _, [] => []
  | k :: kt, c :: ct =>
      bytesOfNat ks k ++ (bytesOfNat INDEX_SIZE c ++ serializeSlots ks kt ct)

/-- Parse `n` slots of the slot area back into the key and child lists. -/
def parseSlots (ks : Nat) : Nat → List Nat → List Nat × List Nat
  | 0, _ => ([], [])
  | n + 1, data =>
      let r := parseSlots ks n (data.drop (ks + INDEX_SIZE))
      (natOfBytes (data.take ks) :: r.1,
       natOfBytes ((data.drop ks).take INDEX_SIZE) :: r.2)

/-- Modelled from the spec: serialize one internal page to its on-disk
bytes — header bitmap (reserved bit 0, then one occupancy bit per slot),
fixed-width slot area, then the trailer (parent pointer, extra child
pointer, child-category tag), zero-padded to the page size. -/
def getPageData (p : BTreeInternalPage) : List Nat :=
  packBits (p.child0used :: p.occupancy) ++
    (serializeSlots p.keySize p.keys p.children ++
      (bytesOfNat INDEX_SIZE p.parent ++
        (bytesOfNat INDEX_SIZE p.child0 ++
          (p.childCategory % 256 ::
            List.replicate
              (p.pageSize -
                (getHeaderSize p.numSlots +
                  p.numSlots * (p.keySize + INDEX_SIZE) + (2 * INDEX_SIZE + 1)))
              0))))

/-- Modelled from the spec: the `BTreeInternalPage` constructor, building a
page from raw bytes read from disk; a constructed page is clean. -/
def BTreeInternalPage.fromData (pageSize keySize : Nat) (pid : BTreePageId)
    (data : List Nat) : BTreeInternalPage :=
  let m := getMaxEntries pageSize (keySize + INDEX_SIZE)
  let bits := unpackBits (m + 1) (data.take (getHeaderSize m))
  let body := data.drop (getHeaderSize m)
  let slots := parseSlots keySize m body
  let tr := body.drop (m * (keySize + INDEX_SIZE))
  { pageSize := pageSize
    keySize := keySize
    pid := pid
    parent := natOfBytes (tr.take INDEX_SIZE)
    child0 := natOfBytes ((tr.drop INDEX_SIZE).take INDEX_SIZE)
    childCategory := (tr.drop (2 * INDEX_SIZE)).headD 0
    child0used := bits.headD false
    occupancy := bits.tail
    keys := slots.1
    children := slots.2
    dirty := none }

/-- A structurally valid page: the bitmap and slot arrays have exactly
`numSlots` elements and every stored value fits its on-disk field width. -/
def wf (p : BTreeInternalPage) : Prop :=
  p.occupancy.length = p.numSlots ∧
  p.keys.length = p.numSlots ∧
  p.children.length = p.numSlots ∧
  (∀ k ∈ p.keys, k < 256 ^ p.keySize) ∧
  (∀ c ∈ p.children, c < 256 ^ INDEX_SIZE) ∧
  p.parent < 256 ^ INDEX_SIZE ∧
  p.child0 < 256 ^ INDEX_SIZE ∧
  p.childCategory < 256

instance (p : BTreeInternalPage) : Decidable (wf p) := by
  unfold wf; infer_instance

/-- Whether entry slot `i` of the page is filled (out of range reads empty). -/
def isSlotUsed (p : BTreeInternalPage) (i : Nat) : Bool :=
  p.occupancy.getD i false

/-- The number of entries (keys) currently stored on the page. -/
def getNumEntries (p : BTreeInternalPage) : Nat :=
  p.occupancy.count true

/-- The number of empty entry slots on the page. -/
def getNumEmptySlots (p : BTreeInternalPage) : Nat :=
  p.occupancy.count false

/-- Index of the first `false` bit of a bitmap, scanning left to right. -/
def firstFalse : List Bool → Option Nat
  | [] => none
  | b :: rest => if b then (firstFalse rest).map (· + 1) else some 0

/-- Modelled from the spec: whether the left or right child of `e` matches
a child pointer already live on the page (the extra leftmost pointer when
it is live, or any occupied slot's pointer). -/
def childMatches (p : BTreeInternalPage) (e : BTreeEntry) : Bool :=
  (p.child0used && (p.child0 == e.leftChild || p.child0 == e.rightChild)) ||
    (List.range p.occupancy.length).any fun i =>
      isSlotUsed p i &&
        (p.children.getD i 0 == e.leftChild || p.children.getD i 0 == e.rightChild)

/-- Replace the first live child pointer equal to `target` by `repl`,
walking the slots left to right. -/
def relinkChildren (occ : List Bool) (cs : List Nat) (target repl : Nat) : List Nat :=
  match occ, cs with
  | [], cs => cs
  | _ :: _, [] => []
  | b :: ot, c :: ct =>
      if b && c == target then repl :: ct
      else c :: relinkChildren ot ct target repl

/-- Modelled from the spec: when the new entry shares its right child with
an existing live pointer, that pointer is relinked to the new entry's left
child, so the two entries sit adjacently; the first live match, scanning
the extra pointer then the slots left to right, is rewritten. -/
def relink (p : BTreeInternalPage) (e : BTreeEntry) : BTreeInternalPage :=
  if p.child0used && p.child0 == e.rightChild then { p with child0 := e.leftChild }
  else { p with children := relinkChildren p.occupancy p.children e.rightChild e.leftChild }

/-- Modelled from the spec: `insertEntry`.  A page with no empty slot fails
with `PageFullError`.  The first entry of an empty page consumes the extra
child pointer (left child) and slot 0 (key + right child).  Otherwise the
entry must share a child with a live pointer, else `BadEntryError`; on
success it is written into the first empty slot and the matching pointer is
relinked, and the entry's locator records its new slot. -/
def insertEntry (p : BTreeInternalPage) (e : BTreeEntry) :
    Except DbError (BTreeInternalPage × BTreeEntry) :=
  if getNumEmptySlots p = 0 then .error .PageFullError
  else if getNumEntries p = 0 then
    .ok ({ p with
            child0used := true
            child0 := e.leftChild
            occupancy := p.occupancy.set 0 true
            keys := p.keys.set 0 e.key
            children := p.children.set 0 e.rightChild },
         { e with recordId := some ⟨p.pid, 0⟩ })
  else if childMatches p e then
    match firstFalse p.occupancy with
    | none => .error .PageFullError
    | some s =>
        let q := relink p e
        .ok ({ q with
                occupancy := q.occupancy.set s true
                keys := q.keys.set s e.key
                children := q.children.set s e.rightChild },
             { e with recordId := some ⟨p.pid, s⟩ })
  else .error .BadEntryError

/-- Modelled from the spec: delete the entry found through its locator.
Fails with `InvalidLocatorError` when the locator is absent, names another
page, or its slot is already empty.  On success only the slot's occupancy
bit is cleared — the specified side's child pointer is abandoned in place
and the surviving pointer is not rewritten — and the returned entry's
locator is cleared. -/
def deleteEntry (p : BTreeInternalPage) (e : BTreeEntry) (_deleteRightChild : Bool) :
    Except DbError (BTreeInternalPage × BTreeEntry) :=
  match e.recordId with
  | none => .error .InvalidLocatorError
  | some rid =>
      if rid.pid ≠ p.pid then .error .InvalidLocatorError
      else if isSlotUsed p rid.slot = false then .error .InvalidLocatorError
      else
        .ok ({ p with occupancy := p.occupancy.set rid.slot false },
             { e with recordId := none })

/-- Delete the entry's key together with its right child pointer. -/
def deleteKeyAndRightChild (p : BTreeInternalPage) (e : BTreeEntry) :
    Except DbError (BTreeInternalPage × BTreeEntry) :=
  deleteEntry p e true

/-- Delete the entry's key together with its left child pointer. -/
def deleteKeyAndLeftChild (p : BTreeInternalPage) (e : BTreeEntry) :
    Except DbError (BTreeInternalPage × BTreeEntry) :=
  deleteEntry p e false

/-- The greatest live slot index strictly below `s`, if any. -/
def prevLiveIdx (occ : List Bool) (s : Nat) : Option Nat :=
  (List.range s).foldl (fun acc i => if occ.getD i false then some i else acc) none

/-- Modelled from the spec: `updateEntry` overwrites the key and both child
pointers of the entry at its locator's slot (the left child pointer lives
in the preceding live position); fails with `InvalidLocatorError` on an
absent or stale locator or an empty slot. -/
def updateEntry (p : BTreeInternalPage) (e : BTreeEntry) :
    Except DbError (BTreeInternalPage × BTreeEntry) :=
  match e.recordId with
  | none => .error .InvalidLocatorError
  | some rid =>
      if rid.pid ≠ p.pid then .error .InvalidLocatorError
      else if isSlotUsed p rid.slot = false then .error .InvalidLocatorError
      else
        let q :=
          match prevLiveIdx p.occupancy rid.slot with
          | none => { p with child0 := e.leftChild }
          | some j => { p with children := p.children.set j e.leftChild }
        .ok ({ q with
                keys := q.keys.set rid.slot e.key
                children := q.children.set rid.slot e.rightChild }, e)

/-- Embedded from the `Page` class source, inherited by the internal page:
`markDirty` overwrites the dirty marker. -/
def markDirty (p : BTreeInternalPage) (tid : Option Nat) : BTreeInternalPage :=
  { p with dirty := tid }

/-- Embedded from the `Page` class source, inherited by the internal page:
`isDirty` returns the dirty marker. -/
def isDirty (p : BTreeInternalPage) : Option Nat := p.dirty

/-- The first live slot in the given index list, if any. -/
def firstLive (p : BTreeInternalPage) : List Nat → Option Nat
  | [] => none
  | i :: rest => if isSlotUsed p i then some i else firstLive p rest

/-- Modelled from the spec: the forward iterator walks the slots upward,
skipping empty slots, pairing each live key with the previously seen live
child pointer on its left and the slot's own pointer on its right. -/
def forwardAux (p : BTreeInternalPage) : Nat → List Nat → List BTreeEntry
  | _, [] => []
  | prevChild, i :: rest =>
      if isSlotUsed p i then
        { key := p.keys.getD i 0
          leftChild := prevChild
          rightChild := p.children.getD i 0
          recordId := some ⟨p.pid, i⟩ } :: forwardAux p (p.children.getD i 0) rest
      else forwardAux p prevChild rest

/-- The entry sequence of the forward iterator (`begin`/`end`). -/
def forwardEntries (p : BTreeInternalPage) : List BTreeEntry :=
  forwardAux p p.child0 (List.range p.occupancy.length)

/-- Modelled from the spec: the reverse iterator walks the slots downward,
skipping empty slots; each live key's left child is the next live pointer
found further down (the extra pointer when none remains), its right child
the slot's own pointer. -/
def reverseAux (p : BTreeInternalPage) : Nat → List Nat → List BTreeEntry
  | _, [] => []
  | dflt, i :: rest =>
      if isSlotUsed p i then
        { key := p.keys.getD i 0
          leftChild :=
            match firstLive p rest with
            | some j => p.children.getD j 0
            | none => dflt
          rightChild := p.children.getD i 0
          recordId := some ⟨p.pid, i⟩ } :: reverseAux p dflt rest
      else reverseAux p dflt rest

/-- The entry sequence of the reverse iterator (`rbegin`/`rend`). -/
def reverseEntries (p : BTreeInternalPage) : List BTreeEntry :=
  reverseAux p p.child0 (List.range p.occupancy.length).reverse

/-- One resident buffer-pool page: its identity, its current serialized
content (what `getPageData` would produce now), and its dirty marker. -/
structure CachedPage where
  pid : BTreePageId
  data : List Nat
  dirty : Option Nat
deriving DecidableEq

/-- Modelled from the spec: the buffer pool, a bounded cache of resident
pages. -/
structure BufferPool where
  capacity : Nat
  pages : List CachedPage
deriving DecidableEq

/-- Whether the page with this identity is resident in the pool. -/
def BufferPool.resident (bp : BufferPool) (pid : BTreePageId) : Bool :=
  bp.pages.any fun q => q.pid == pid

/-- Modelled from the spec: the eviction policy prefers a clean resident
page (no flush needed); only when every resident page is dirty is a dirty
one (the first) chosen. -/
def chooseVictim (pages : List CachedPage) : Option CachedPage :=
  match pages.find? (fun q => q.dirty == none) with
  | some q => some q
  | none => pages.head?

/-- Modelled from the spec: `getPage`.  A hit returns the pool unchanged;
a miss below capacity loads the page; a miss at capacity first evicts the
chosen victim, flushing it (one write of its serialized bytes through the
persistence collaborator) when and only when it is dirty, then loads the
requested page.  The second component lists the writes performed. -/
def BufferPool.getPage (bp : BufferPool) (disk : BTreePageId → List Nat)
    (pid : BTreePageId) : BufferPool × List (BTreePageId × List Nat) :=
  if bp.resident pid then (bp, [])
  else
    let fresh : CachedPage := { pid := pid, data := disk pid, dirty := none }
    if bp.pages.length < bp.capacity then
      ({ bp with pages := bp.pages ++ [fresh] }, [])
    else
      match chooseVictim bp.pages with
      | none => (bp, [])
      | some v =>
          ({ bp with pages := (bp.pages.filter fun q => q.pid != v.pid) ++ [fresh] },
           if v.dirty == none then [] else [(v.pid, v.data)])

/-- The entry synthesized for live slot `i`, its left child `lc` supplied
by the iterator state. -/
def entryAt (p : BTreeInternalPage) (i : Nat) (lc : Nat) : BTreeEntry :=
  { key := p.keys.getD i 0, leftChild := lc, rightChild := p.children.getD i 0,
    recordId := some ⟨p.pid, i⟩ }

/-- A sample page: page size 30, one-byte keys (four entry slots), slots
0 and 2 occupied. -/
def pSample : BTreeInternalPage :=
  { pageSize := 30, keySize := 1, pid := ⟨1, 1⟩, parent := 7, childCategory := 1,
    child0used := true, child0 := 3,
    occupancy := [true, false, true, false],
    keys := [10, 0, 20, 0],
    children := [1, 0, 2, 0] }

/-- A completely full page (page size 30, one-byte keys, four slots). -/
def pFull : BTreeInternalPage :=
  { pageSize := 30, keySize := 1, pid := ⟨1, 1⟩, parent := 0, childCategory := 0,
    child0used := true, child0 := 5,
    occupancy := [true, true, true, true],
    keys := [9, 8, 7, 6],
    children := [1, 2, 3, 4] }

/-- An entry whose children match nothing stored on `pFull` or `pSample`. -/
def eProbe : BTreeEntry := { key := 50, leftChild := 90, rightChild := 91 }

/-- An entry carrying no locator. -/
def eNoLoc : BTreeEntry := { key := 1, leftChild := 2, rightChild := 3 }

/-- An entry whose locator names the empty slot 1 of `pSample`. -/
def eStale : BTreeEntry :=
  { key := 1, leftChild := 2, rightChild := 3, recordId := some ⟨⟨1, 1⟩, 1⟩ }

/-- An entry whose locator names the occupied slot 2 of `pSample`. -/
def eLoc : BTreeEntry :=
  { key := 20, leftChild := 1, rightChild := 2, recordId := some ⟨⟨1, 1⟩, 2⟩ }

/-- An entry adjacent to `pSample`'s stored pointers (its left child 2 is
the live child of slot 2). -/
def eAdj : BTreeEntry := { key := 30, leftChild := 2, rightChild := 8 }

/-- A one-slot pool holding a single dirty page. -/
def bpSample : BufferPool :=
  { capacity := 1, pages := [{ pid := ⟨1, 1⟩, data := [1, 2, 3], dirty := some 5 }] }

/-- A trivial persistence collaborator. -/
def diskSample : BTreePageId → List Nat := fun _ => [9]

/-! ### Arithmetic and codec lemmas -/

theorem getHeaderSize_eq_ceil (n : Nat) : getHeaderSize n = (n + 1 + 7) / 8 := by
  unfold getHeaderSize
  split <;> omega

theorem byteOfBits_cons (b : Bool) (bs : List Bool) :
    byteOfBits (b :: bs) = (if b then 1 else 0) + 2 * byteOfBits bs := rfl

theorem bitsOfByte_byteOfBits (bs : List Bool) :
    bitsOfByte bs.length (byteOfBits bs) = bs := by
  induction bs with
  | nil => rfl
  | cons b t ih =>
    show bitsOfByte (t.length + 1) (byteOfBits (b :: t)) = b :: t
    rw [byteOfBits_cons, bitsOfByte]
    cases b
    · have h1 : ((if false then 1 else 0) + 2 * byteOfBits t) % 2 = 0 := by
        simp
      have h2 : ((if false then 1 else 0) + 2 * byteOfBits t) / 2 = byteOfBits t := by
        simp
      rw [h1, h2, ih]
      rfl
    · have h1 : ((if true then 1 else 0) + 2 * byteOfBits t) % 2 = 1 := by
        simp [Nat.add_mul_mod_self_left]
      have h2 : ((if true then 1 else 0) + 2 * byteOfBits t) / 2 = byteOfBits t := by
        simp
        omega
      rw [h1, h2, ih]
      rfl

theorem packBits_length (bs : List Bool) :
    (packBits bs).length = (bs.length + 7) / 8 := by
  have H : ∀ (n : Nat) (bs : List Bool), bs.length ≤ n →
      (packBits bs).length = (bs.length + 7) / 8 := by
    intro n
    induction n with
    | zero =>
      intro bs h
      have hb : bs = [] := List.eq_nil_of_length_eq_zero (by omega)
      subst hb; simp [packBits]
    | succ n ih =>
      intro bs h
      match bs with
      | [] => simp [packBits]
      | b :: rest =>
        rw [packBits]
        have hr : (rest.drop 7).length = rest.length - 7 := by
          simp [List.length_drop]
        have hle : rest.length + 1 ≤ n + 1 := by simpa using h
        have := ih (rest.drop 7) (by simp only [List.length_drop]; omega)
        simp only [List.length_cons, this, hr]
        omega
  exact H bs.length bs le_rfl

theorem unpackBits_packBits (bs : List Bool) :
    unpackBits bs.length (packBits bs) = bs := by
  have H : ∀ (n : Nat) (bs : List Bool), bs.length ≤ n →
      unpackBits bs.length (packBits bs) = bs := by
    intro n
    induction n with
    | zero =>
      intro bs h
      have hb : bs = [] := List.eq_nil_of_length_eq_zero (by omega)
      subst hb; simp [packBits, unpackBits]
    | succ n ih =>
      intro bs h
      match bs with
      | [] => simp [packBits, unpackBits]
      | b :: rest =>
        rw [packBits]
        have hle : rest.length + 1 ≤ n + 1 := by simpa using h
        show unpackBits (rest.length + 1)
            (byteOfBits (b :: rest.take 7) :: packBits (rest.drop 7)) = b :: rest
        rw [unpackBits]
        have h7 : min (rest.length + 1) 8 = (b :: rest.take 7).length := by
          simp [List.length_take]
          omega
        rw [h7, bitsOfByte_byteOfBits]
        have hdl : rest.length + 1 - 8 = (rest.drop 7).length := by
          simp [List.length_drop]
        rw [hdl, ih (rest.drop 7) (by simp only [List.length_drop]; omega)]
        show b :: (rest.take 7 ++ rest.drop 7) = b :: rest
        rw [List.take_append_drop]
  exact H bs.length bs le_rfl

theorem bytesOfNat_length (w v : Nat) : (bytesOfNat w v).length = w := by
  induction w generalizing v with
  | zero => rfl
  | succ w ih => simp [bytesOfNat, ih]

theorem natOfBytes_bytesOfNat (w v : Nat) (h : v < 256 ^ w) :
    natOfBytes (bytesOfNat w v) = v := by
  induction w generalizing v with
  | zero =>
    have : v = 0 := by simpa using h
    subst this; rfl
  | succ w ih =>
    have hlt : v / 256 < 256 ^ w := by
      have h2 : v < 256 ^ w * 256 := by
        calc v < 256 ^ (w + 1) := h
          _ = 256 ^ w * 256 := pow_succ 256 w
      exact (Nat.div_lt_iff_lt_mul (by norm_num)).mpr h2
    rw [bytesOfNat, natOfBytes, ih (v / 256) hlt]
    omega

theorem serializeSlots_length (ks : Nat) (keys children : List Nat)
    (h : keys.length = children.length) :
    (serializeSlots ks keys children).length = keys.length * (ks + INDEX_SIZE) := by
  induction keys generalizing children with
  | nil => simp [serializeSlots]
  | cons k kt ih =>
    cases children with
    | nil => simp at h
    | cons c ct =>
      have hl : kt.length = ct.length := by simpa using h
      simp [serializeSlots, bytesOfNat_length, ih ct hl]
      ring

theorem parseSlots_serializeSlots (ks : Nat) (keys children rest : List Nat)
    (hlen : keys.length = children.length)
    (hk : ∀ k ∈ keys, k < 256 ^ ks)
    (hc : ∀ c ∈ children, c < 256 ^ INDEX_SIZE) :
    parseSlots ks keys.length (serializeSlots ks keys children ++ rest) =
      (keys, children) := by
  induction keys generalizing children rest with
  | nil =>
    cases children with
    | nil => rfl
    | cons c ct => simp at hlen
  | cons k kt ih =>
    cases children with
    | nil => simp at hlen
    | cons c ct =>
      have hk1 : k < 256 ^ ks := hk k (by simp)
      have hc1 : c < 256 ^ INDEX_SIZE := hc c (by simp)
      have hl : kt.length = ct.length := by simpa using hlen
      rw [serializeSlots]
      have e1 : bytesOfNat ks k ++ (bytesOfNat INDEX_SIZE c ++ serializeSlots ks kt ct) ++ rest
          = bytesOfNat ks k ++
              (bytesOfNat INDEX_SIZE c ++ (serializeSlots ks kt ct ++ rest)) := by
        simp [List.append_assoc]
      rw [e1]
      show parseSlots ks (kt.length + 1) _ = _
      rw [parseSlots]
      have htake : (bytesOfNat ks k ++
          (bytesOfNat INDEX_SIZE c ++ (serializeSlots ks kt ct ++ rest))).take ks
          = bytesOfNat ks k := List.take_left' (bytesOfNat_length ks k)
      have hdropks : (bytesOfNat ks k ++
          (bytesOfNat INDEX_SIZE c ++ (serializeSlots ks kt ct ++ rest))).drop ks
          = bytesOfNat INDEX_SIZE c ++ (serializeSlots ks kt ct ++ rest) :=
        List.drop_left' (bytesOfNat_length ks k)
      have htake4 : (bytesOfNat INDEX_SIZE c ++ (serializeSlots ks kt ct ++ rest)).take INDEX_SIZE
          = bytesOfNat INDEX_SIZE c := List.take_left' (bytesOfNat_length INDEX_SIZE c)
      have e2 : bytesOfNat ks k ++
          (bytesOfNat INDEX_SIZE c ++ (serializeSlots ks kt ct ++ rest))
          = (bytesOfNat ks k ++ bytesOfNat INDEX_SIZE c) ++ (serializeSlots ks kt ct ++ rest) := by
        simp [List.append_assoc]
      have hdropfull : (bytesOfNat ks k ++
          (bytesOfNat INDEX_SIZE c ++ (serializeSlots ks kt ct ++ rest))).drop (ks + INDEX_SIZE)
          = serializeSlots ks kt ct ++ rest := by
        rw [e2]
        exact List.drop_left' (by simp [bytesOfNat_length])
      simp only [htake, hdropks, htake4, hdropfull,
        natOfBytes_bytesOfNat ks k hk1, natOfBytes_bytesOfNat INDEX_SIZE c hc1]
      have hrec := ih ct rest hl (fun x hx => hk x (by simp [hx])) (fun x hx => hc x (by simp [hx]))
      rw [hrec]

/-! ### Claim theorems: capacity law, dirty marker basics -/

/-- C2: `getMaxEntries` for page size `S` and entry width `W` equals
`floor((S*8 - trailerBits) / (W*8 + 1))`, where the trailer holds the
parent pointer, the extra child pointer and the one-byte child-category
tag; and `getHeaderSize` equals `ceil((numSlots + 1) / 8)` bytes. -/
theorem capacity_and_header_law :
    (∀ S W : Nat, getMaxEntries S W =
      (S * 8 - (INDEX_SIZE * 8 + INDEX_SIZE * 8 + 8)) / (W * 8 + 1)) ∧
    (∀ n : Nat, getHeaderSize n = (n + 1 + 7) / 8) := by
  constructor
  · intro S W
    norm_num [getMaxEntries, INDEX_SIZE]
  · exact getHeaderSize_eq_ceil

/-- C10: every page is clean at construction: the `Page` dirty member is
default-initialized to `none`, and a `BTreeInternalPage` built by the
deserializing constructor reports `isDirty = none` before any `markDirty`. -/
theorem pages_clean_at_construction :
    Page.init.isDirty = none ∧
    (∀ (ps ks : Nat) (pid : BTreePageId) (data : List Nat),
      isDirty (BTreeInternalPage.fromData ps ks pid data) = none) ∧
    (∀ (ps ks : Nat) (pid : BTreePageId) (data : List Nat),
      (BTreeInternalPage.fromData ps ks pid data).dirty = none) := by
  refine ⟨rfl, ?_, ?_⟩ <;> intro ps ks pid data <;> rfl

/-- C8: the dirty owner changes only through the single mutator
`markDirty`: `isDirty` returns exactly the stored marker, `markDirty t`
makes it `t`, and none of the content operations (insert, the two deletes,
update) nor serialization touches the dirty marker. -/
theorem dirty_owner_single_mutator :
    (∀ (p : Page) (t : Option Nat), (p.markDirty t).isDirty = t) ∧
    (∀ (p : BTreeInternalPage) (t : Option Nat), isDirty (markDirty p t) = t) ∧
    (∀ p : BTreeInternalPage, isDirty p = p.dirty) ∧
    (∀ (p : BTreeInternalPage) (e : BTreeEntry),
      (insertEntry p e).map (fun r => r.1.dirty) =
        (insertEntry p e).map (fun _ => p.dirty)) ∧
    (∀ (p : BTreeInternalPage) (e : BTreeEntry),
      (deleteKeyAndRightChild p e).map (fun r => r.1.dirty) =
        (deleteKeyAndRightChild p e).map (fun _ => p.dirty)) ∧
    (∀ (p : BTreeInternalPage) (e : BTreeEntry),
      (deleteKeyAndLeftChild p e).map (fun r => r.1.dirty) =
        (deleteKeyAndLeftChild p e).map (fun _ => p.dirty)) ∧
    (∀ (p : BTreeInternalPage) (e : BTreeEntry),
      (updateEntry p e).map (fun r => r.1.dirty) =
        (updateEntry p e).map (fun _ => p.dirty)) ∧
    (∀ (p : BTreeInternalPage) (t : Option Nat),
      getPageData (markDirty p t) = getPageData p) := by
  refine ⟨fun p t => rfl, fun p t => rfl, fun p => rfl, ?_, ?_, ?_, ?_, fun p t => rfl⟩
  · intro p e
    unfold insertEntry
    split
    · rfl
    split
    · rfl
    split
    · split
      · rfl
      · unfold relink
        split <;> rfl
    · rfl
  · intro p e
    unfold deleteKeyAndRightChild deleteEntry
    split
    · rfl
    split
    · rfl
    split <;> rfl
  · intro p e
    unfold deleteKeyAndLeftChild deleteEntry
    split
    · rfl
    split
    · rfl
    split <;> rfl
  · intro p e
    unfold updateEntry
    split
    · rfl
    split
    · rfl
    split
    · rfl
    · split <;> rfl

/-! ### Round trip -/

theorem fromData_getPageData_core (p : BTreeInternalPage) (pad : List Nat)
    (hocc : p.occupancy.length = p.numSlots)
    (hkeys : p.keys.length = p.numSlots)
    (hchildren : p.children.length = p.numSlots)
    (hk : ∀ k ∈ p.keys, k < 256 ^ p.keySize)
    (hc : ∀ c ∈ p.children, c < 256 ^ INDEX_SIZE)
    (hpar : p.parent < 256 ^ INDEX_SIZE)
    (hc0 : p.child0 < 256 ^ INDEX_SIZE)
    (hcat : p.childCategory < 256) :
    BTreeInternalPage.fromData p.pageSize p.keySize p.pid
      (packBits (p.child0used :: p.occupancy) ++
        (serializeSlots p.keySize p.keys p.children ++
          (bytesOfNat INDEX_SIZE p.parent ++
            (bytesOfNat INDEX_SIZE p.child0 ++
              (p.childCategory % 256 :: pad))))) = { p with dirty := none } := by
  have hkc : p.keys.length = p.children.length := hkeys.trans hchildren.symm
  have hbits_len : (p.child0used :: p.occupancy).length = p.numSlots + 1 := by
    simp [hocc]
  have hHd_len : (packBits (p.child0used :: p.occupancy)).length
      = getHeaderSize p.numSlots := by
    rw [packBits_length, hbits_len, getHeaderSize_eq_ceil]
  have hS_len : (serializeSlots p.keySize p.keys p.children).length
      = p.numSlots * (p.keySize + INDEX_SIZE) := by
    rw [serializeSlots_length p.keySize p.keys p.children hkc, hkeys]
  simp only [BTreeInternalPage.fromData]
  have hms : getMaxEntries p.pageSize (p.keySize + INDEX_SIZE) = p.numSlots := rfl
  rw [hms]
  rw [List.take_left' hHd_len, List.drop_left' hHd_len]
  have h3 : unpackBits (p.numSlots + 1) (packBits (p.child0used :: p.occupancy))
      = p.child0used :: p.occupancy := by
    rw [← hbits_len]; exact unpackBits_packBits _
  rw [h3]
  have h4 : parseSlots p.keySize p.numSlots
      (serializeSlots p.keySize p.keys p.children ++
        (bytesOfNat INDEX_SIZE p.parent ++
          (bytesOfNat INDEX_SIZE p.child0 ++ (p.childCategory % 256 :: pad))))
      = (p.keys, p.children) := by
    rw [show p.numSlots = p.keys.length from hkeys.symm]
    exact parseSlots_serializeSlots p.keySize p.keys p.children _ hkc hk hc
  rw [h4, List.drop_left' hS_len]
  rw [List.take_left' (bytesOfNat_length INDEX_SIZE p.parent),
    List.drop_left' (bytesOfNat_length INDEX_SIZE p.parent),
    List.take_left' (bytesOfNat_length INDEX_SIZE p.child0)]
  have h9 : (bytesOfNat INDEX_SIZE p.parent ++
      (bytesOfNat INDEX_SIZE p.child0 ++ (p.childCategory % 256 :: pad))).drop
        (2 * INDEX_SIZE) = p.childCategory % 256 :: pad := by
    rw [show bytesOfNat INDEX_SIZE p.parent ++
        (bytesOfNat INDEX_SIZE p.child0 ++ (p.childCategory % 256 :: pad))
        = (bytesOfNat INDEX_SIZE p.parent ++ bytesOfNat INDEX_SIZE p.child0) ++
          (p.childCategory % 256 :: pad) from by simp [List.append_assoc]]
    exact List.drop_left' (by simp [bytesOfNat_length]; ring)
  rw [h9]
  rw [natOfBytes_bytesOfNat INDEX_SIZE p.parent hpar,
    natOfBytes_bytesOfNat INDEX_SIZE p.child0 hc0]
  simp [Nat.mod_eq_of_lt hcat]

/-- C1: serializing a valid internal page with `getPageData` and handing
the bytes to the deserializing constructor reproduces the page exactly:
same occupied-slot set, same keys and child pointers in the same slots,
same parent pointer; the runtime-only dirty marker is excluded from the
round trip (the rebuilt page is clean). -/
theorem internal_page_round_trip (p : BTreeInternalPage) (h : wf p) :
    BTreeInternalPage.fromData p.pageSize p.keySize p.pid (getPageData p) =
      { p with dirty := none } := by
  obtain ⟨hocc, hkeys, hchildren, hk, hc, hpar, hc0, hcat⟩ := h
  unfold getPageData
  exact fromData_getPageData_core p _ hocc hkeys hchildren hk hc hpar hc0 hcat

theorem internal_page_round_trip_witness :
    wf pSample ∧
    BTreeInternalPage.fromData pSample.pageSize pSample.keySize pSample.pid
        (getPageData pSample) = { pSample with dirty := none } :=
  ⟨by decide, internal_page_round_trip pSample (by decide)⟩

/-! ### Bitmap lemmas -/

theorem firstFalse_isSome (l : List Bool) (h : l.count false ≠ 0) :
    ∃ s, firstFalse l = some s := by
  induction l with
  | nil => simp at h
  | cons b t ih =>
    cases b
    · exact ⟨0, rfl⟩
    · have ht : t.count false ≠ 0 := by
        simpa [List.count_cons] using h
      obtain ⟨s, hs⟩ := ih ht
      exact ⟨s + 1, by simp [firstFalse, hs]⟩

theorem firstFalse_spec (l : List Bool) (s : Nat) (h : firstFalse l = some s) :
    s < l.length ∧ l.getD s false = false := by
  induction l generalizing s with
  | nil => simp [firstFalse] at h
  | cons b t ih =>
    cases b
    · simp [firstFalse] at h
      subst h
      simp
    · simp [firstFalse] at h
      obtain ⟨a, ha, rfl⟩ := h
      obtain ⟨h1, h2⟩ := ih a ha
      refine ⟨by simp; omega, by simpa using h2⟩

theorem length_pos_of_count_false (l : List Bool) (h : l.count false ≠ 0) :
    0 < l.length := by
  cases l
  · simp at h
  · simp

theorem getD_zero_false_of_count_true_zero (l : List Bool) (hl : 0 < l.length)
    (h : l.count true = 0) : l.getD 0 false = false := by
  cases l with
  | nil => simp at hl
  | cons b t =>
    cases b
    · rfl
    · simp [List.count_cons] at h

theorem count_set_true (l : List Bool) (s : Nat) (hs : s < l.length)
    (hv : l.getD s false = false) :
    (l.set s true).count true = l.count true + 1 ∧
    (l.set s true).count false + 1 = l.count false := by
  induction l generalizing s with
  | nil => simp at hs
  | cons b t ih =>
    cases s with
    | zero =>
      have hb : b = false := by simpa using hv
      subst hb
      simp [List.count_cons]
    | succ s =>
      have hs' : s < t.length := by simpa using hs
      have hv' : t.getD s false = false := by simpa using hv
      obtain ⟨h1, h2⟩ := ih s hs' hv'
      cases b <;> simp [List.set, List.count_cons, h1] <;> omega

theorem set_false_self (l : List Bool) (s : Nat) (hv : l.getD s false = false) :
    l.set s false = l := by
  induction l generalizing s with
  | nil => rfl
  | cons b t ih =>
    cases s with
    | zero =>
      have hb : b = false := by simpa using hv
      subst hb
      rfl
    | succ s =>
      simp only [List.set]
      rw [ih s (by simpa using hv)]

theorem getD_set_self (l : List Bool) (s : Nat) (a : Bool) (h : s < l.length) :
    (l.set s a).getD s false = a := by
  induction l generalizing s with
  | nil => simp at h
  | cons b t ih =>
    cases s with
    | zero => rfl
    | succ s =>
      simp only [List.set, List.getD_cons_succ]
      exact ih s (by simpa using h)

theorem relink_occupancy (p : BTreeInternalPage) (e : BTreeEntry) :
    (relink p e).occupancy = p.occupancy := by
  unfold relink; split <;> rfl

theorem relink_pid (p : BTreeInternalPage) (e : BTreeEntry) :
    (relink p e).pid = p.pid := by
  unfold relink; split <;> rfl

/-! ### Insert and delete behavior -/

/-- C3 counterexample: with 4-byte keys and 4-byte child ids on an
8192-byte page, the capacity formula yields 1007 entry slots, not the 482
the scenario states (and hence not a 61-byte header). -/
theorem insert_scenario_numbers_cex :
    getMaxEntries 8192 (4 + INDEX_SIZE) ≠ 482 ∧
    getMaxEntries 8192 (4 + INDEX_SIZE) = 1007 ∧
    getHeaderSize (getMaxEntries 8192 (4 + INDEX_SIZE)) ≠ 61 ∧
    getHeaderSize (getMaxEntries 8192 (4 + INDEX_SIZE)) = 126 := by
  refine ⟨by decide, by decide, by decide, by decide⟩

/-- C3 (amended): `insertEntry` with zero empty slots fails with
`PageFullError`; with at least one empty slot it succeeds provided the
entry is insertable (empty page, or a child matches a stored pointer);
each successful insert consumes exactly one empty slot, so starting from
an empty page the page is exactly full after `numSlots` inserts and the
next one fails; for an 8192-byte page with a 4-byte key plus 4-byte
child-id entry format, `numSlots` is 1007 (header 126 bytes). -/
theorem insert_capacity_behavior :
    (∀ (p : BTreeInternalPage) (e : BTreeEntry),
      getNumEmptySlots p = 0 → insertEntry p e = .error DbError.PageFullError) ∧
    (∀ (p : BTreeInternalPage) (e : BTreeEntry),
      getNumEmptySlots p ≠ 0 → (getNumEntries p = 0 ∨ childMatches p e = true) →
      ∃ r, insertEntry p e = .ok r) ∧
    (∀ (p : BTreeInternalPage) (e : BTreeEntry) r,
      insertEntry p e = .ok r →
      getNumEntries r.1 = getNumEntries p + 1 ∧
      getNumEmptySlots r.1 + 1 = getNumEmptySlots p) ∧
    getMaxEntries 8192 (4 + INDEX_SIZE) = 1007 ∧
    getHeaderSize (getMaxEntries 8192 (4 + INDEX_SIZE)) = 126 := by
  refine ⟨?_, ?_, ?_, by decide, by decide⟩
  · intro p e h
    unfold insertEntry
    rw [if_pos h]
  · intro p e h hm
    unfold insertEntry
    rw [if_neg h]
    by_cases hz : getNumEntries p = 0
    · rw [if_pos hz]
      exact ⟨_, rfl⟩
    · have hmt : childMatches p e = true := hm.resolve_left hz
      rw [if_neg hz, if_pos hmt]
      obtain ⟨s, hs⟩ := firstFalse_isSome p.occupancy h
      rw [hs]
      exact ⟨_, rfl⟩
  · intro p e r h
    unfold insertEntry at h
    split at h
    · exact absurd h (by simp)
    · split at h
      · rename_i hfull hz
        simp only [Except.ok.injEq] at h
        subst h
        have hlen : 0 < p.occupancy.length := length_pos_of_count_false _ hfull
        have hv : p.occupancy.getD 0 false = false :=
          getD_zero_false_of_count_true_zero _ hlen hz
        obtain ⟨h1, h2⟩ := count_set_true p.occupancy 0 hlen hv
        refine ⟨?_, ?_⟩
        · show (p.occupancy.set 0 true).count true = p.occupancy.count true + 1
          exact h1
        · show (p.occupancy.set 0 true).count false + 1 = p.occupancy.count false
          exact h2
      · split at h
        · split at h
          · exact absurd h (by simp)
          · rename_i s hs
            simp only [Except.ok.injEq] at h
            subst h
            obtain ⟨hslt, hv⟩ := firstFalse_spec p.occupancy s hs
            have hocc : (relink p e).occupancy = p.occupancy := relink_occupancy p e
            obtain ⟨h1, h2⟩ := count_set_true p.occupancy s hslt hv
            refine ⟨?_, ?_⟩
            · show ((relink p e).occupancy.set s true).count true
                = p.occupancy.count true + 1
              rw [hocc, h1]
            · show ((relink p e).occupancy.set s true).count false + 1
                = p.occupancy.count false
              rw [hocc, h2]
        · exact absurd h (by simp)

theorem insert_capacity_behavior_witness :
    getNumEmptySlots pFull = 0 ∧
    insertEntry pFull eProbe = .error DbError.PageFullError :=
  ⟨by decide, insert_capacity_behavior.1 pFull eProbe (by decide)⟩

/-- C4 counterexample: `pFull` is non-empty and neither child of `eProbe`
matches any stored child id, yet `insertEntry` fails with `PageFullError`
(the page has no empty slot), not `BadEntryError`. -/
theorem adjacency_rejection_cex :
    getNumEntries pFull ≠ 0 ∧
    childMatches pFull eProbe = false ∧
    insertEntry pFull eProbe = Except.error DbError.PageFullError ∧
    insertEntry pFull eProbe ≠ Except.error DbError.BadEntryError := by
  have h : insertEntry pFull eProbe = Except.error DbError.PageFullError := by rfl
  refine ⟨by decide, by decide, h, ?_⟩
  intro hbad
  rw [h] at hbad
  exact absurd (Except.error.inj hbad) (by decide)

/-- C4 (amended): on a non-empty page that still has at least one empty
slot, inserting an entry neither of whose child ids matches any stored
child id fails with `BadEntryError` (the operation returns an error, so
the page is not modified). -/
theorem adjacency_rejection (p : BTreeInternalPage) (e : BTreeEntry)
    (hne : getNumEntries p ≠ 0) (hfree : getNumEmptySlots p ≠ 0)
    (hm : childMatches p e = false) :
    insertEntry p e = .error DbError.BadEntryError := by
  unfold insertEntry
  rw [if_neg hfree, if_neg hne, if_neg (by simp [hm])]

theorem adjacency_rejection_witness :
    insertEntry pSample eProbe = .error DbError.BadEntryError :=
  adjacency_rejection pSample eProbe (by decide) (by decide) (by decide)

/-- C5: `deleteKeyAndRightChild`/`deleteKeyAndLeftChild` fail with
`InvalidLocatorError` when the entry carries no locator or the locator's
slot is already empty; on success (valid locator naming this page and an
occupied slot) they clear exactly that slot's occupancy bit — keys, child
pointers, the extra pointer and the parent are all left unrewritten — and
return the entry with its locator cleared. -/
theorem delete_locator_contract (p : BTreeInternalPage) (e : BTreeEntry) :
    (e.recordId = none →
      deleteKeyAndRightChild p e = .error DbError.InvalidLocatorError ∧
      deleteKeyAndLeftChild p e = .error DbError.InvalidLocatorError) ∧
    (∀ rid : RecordId, e.recordId = some rid → isSlotUsed p rid.slot = false →
      deleteKeyAndRightChild p e = .error DbError.InvalidLocatorError ∧
      deleteKeyAndLeftChild p e = .error DbError.InvalidLocatorError) ∧
    (∀ rid : RecordId, e.recordId = some rid → rid.pid = p.pid →
      isSlotUsed p rid.slot = true →
      deleteKeyAndRightChild p e =
        .ok ({ p with occupancy := p.occupancy.set rid.slot false },
             { e with recordId := none }) ∧
      deleteKeyAndLeftChild p e =
        .ok ({ p with occupancy := p.occupancy.set rid.slot false },
             { e with recordId := none })) := by
  refine ⟨?_, ?_, ?_⟩
  · intro h
    constructor <;> simp only [deleteKeyAndRightChild, deleteKeyAndLeftChild, deleteEntry, h]
  · intro rid hr hempty
    by_cases hp : rid.pid = p.pid
    · constructor <;>
        · simp only [deleteKeyAndRightChild, deleteKeyAndLeftChild, deleteEntry, hr]
          rw [if_neg (by simp [hp]), if_pos hempty]
    · constructor <;>
        · simp only [deleteKeyAndRightChild, deleteKeyAndLeftChild, deleteEntry, hr]
          rw [if_pos hp]
  · intro rid hr hp hused
    constructor <;>
      · simp only [deleteKeyAndRightChild, deleteKeyAndLeftChild, deleteEntry, hr]
        rw [if_neg (by simp [hp]), if_neg (by simp [hused])]

theorem delete_locator_contract_witness :
    (deleteKeyAndRightChild pSample eNoLoc = .error DbError.InvalidLocatorError ∧
      deleteKeyAndLeftChild pSample eNoLoc = .error DbError.InvalidLocatorError) ∧
    (deleteKeyAndRightChild pSample eStale = .error DbError.InvalidLocatorError ∧
      deleteKeyAndLeftChild pSample eStale = .error DbError.InvalidLocatorError) ∧
    (deleteKeyAndRightChild pSample eLoc =
        .ok ({ pSample with occupancy := pSample.occupancy.set 2 false },
             { eLoc with recordId := none }) ∧
      deleteKeyAndLeftChild pSample eLoc =
        .ok ({ pSample with occupancy := pSample.occupancy.set 2 false },
             { eLoc with recordId := none })) :=
  ⟨(delete_locator_contract pSample eNoLoc).1 rfl,
   (delete_locator_contract pSample eStale).2.1 ⟨⟨1, 1⟩, 1⟩ rfl (by decide),
   (delete_locator_contract pSample eLoc).2.2 ⟨⟨1, 1⟩, 2⟩ rfl rfl (by decide)⟩

/-- C7: inserting an entry into a page with a free slot and then deleting
it through the locator the insert assigned restores the occupied-slot
count of the page as it was before the insertion (indeed the exact
occupancy bitmap; the freed slot's content is unspecified). -/
theorem insert_delete_inverse (p : BTreeInternalPage) (e : BTreeEntry)
    (hfree : getNumEmptySlots p ≠ 0)
    (hins : getNumEntries p = 0 ∨ childMatches p e = true) :
    ∃ r r', insertEntry p e = .ok r ∧
      deleteKeyAndRightChild r.1 r.2 = .ok r' ∧
      r'.1.occupancy = p.occupancy ∧
      getNumEntries r'.1 = getNumEntries p ∧
      getNumEmptySlots r'.1 = getNumEmptySlots p := by
  by_cases hz : getNumEntries p = 0
  · have hlen : 0 < p.occupancy.length := length_pos_of_count_false _ hfree
    have hv : p.occupancy.getD 0 false = false :=
      getD_zero_false_of_count_true_zero _ hlen hz
    refine ⟨({ p with
                child0used := true
                child0 := e.leftChild
                occupancy := p.occupancy.set 0 true
                keys := p.keys.set 0 e.key
                children := p.children.set 0 e.rightChild },
              { e with recordId := some ⟨p.pid, 0⟩ }),
            ({ p with
                child0used := true
                child0 := e.leftChild
                occupancy := (p.occupancy.set 0 true).set 0 false
                keys := p.keys.set 0 e.key
                children := p.children.set 0 e.rightChild },
              { e with recordId := none }), ?_, ?_, ?_, ?_, ?_⟩
    · unfold insertEntry
      rw [if_neg hfree, if_pos hz]
    · simp only [deleteKeyAndRightChild, deleteEntry]
      rw [if_neg (by simp), if_neg (by
        simp only [isSlotUsed]
        rw [getD_set_self p.occupancy 0 true hlen]
        simp)]
    · show (p.occupancy.set 0 true).set 0 false = p.occupancy
      rw [List.set_set, set_false_self p.occupancy 0 hv]
    · show ((p.occupancy.set 0 true).set 0 false).count true = p.occupancy.count true
      rw [List.set_set, set_false_self p.occupancy 0 hv]
    · show ((p.occupancy.set 0 true).set 0 false).count false = p.occupancy.count false
      rw [List.set_set, set_false_self p.occupancy 0 hv]
  · have hmt : childMatches p e = true := hins.resolve_left hz
    obtain ⟨s, hs⟩ := firstFalse_isSome p.occupancy hfree
    obtain ⟨hslt, hv⟩ := firstFalse_spec p.occupancy s hs
    have hocc : (relink p e).occupancy = p.occupancy := relink_occupancy p e
    have hpid : (relink p e).pid = p.pid := relink_pid p e
    have hlen' : s < (relink p e).occupancy.length := by rw [hocc]; exact hslt
    refine ⟨({ relink p e with
                occupancy := (relink p e).occupancy.set s true
                keys := (relink p e).keys.set s e.key
                children := (relink p e).children.set s e.rightChild },
              { e with recordId := some ⟨p.pid, s⟩ }),
            ({ relink p e with
                occupancy := ((relink p e).occupancy.set s true).set s false
                keys := (relink p e).keys.set s e.key
                children := (relink p e).children.set s e.rightChild },
              { e with recordId := none }), ?_, ?_, ?_, ?_, ?_⟩
    · unfold insertEntry
      rw [if_neg hfree, if_neg hz, if_pos hmt, hs]
    · simp only [deleteKeyAndRightChild, deleteEntry]
      rw [if_neg (by simp [hpid]), if_neg (by
        simp only [isSlotUsed]
        rw [getD_set_self (relink p e).occupancy s true hlen']
        simp)]
    · show ((relink p e).occupancy.set s true).set s false = p.occupancy
      rw [List.set_set, hocc, set_false_self p.occupancy s hv]
    · show (((relink p e).occupancy.set s true).set s false).count true
        = p.occupancy.count true
      rw [List.set_set, hocc, set_false_self p.occupancy s hv]
    · show (((relink p e).occupancy.set s true).set s false).count false
        = p.occupancy.count false
      rw [List.set_set, hocc, set_false_self p.occupancy s hv]

theorem insert_delete_inverse_witness :
    getNumEmptySlots pSample ≠ 0 ∧
    childMatches pSample eAdj = true ∧
    ∃ r r', insertEntry pSample eAdj = .ok r ∧
      deleteKeyAndRightChild r.1 r.2 = .ok r' ∧
      r'.1.occupancy = pSample.occupancy ∧
      getNumEntries r'.1 = getNumEntries pSample ∧
      getNumEmptySlots r'.1 = getNumEmptySlots pSample :=
  ⟨by decide, by decide,
   insert_delete_inverse pSample eAdj (by decide) (Or.inr (by decide))⟩

/-! ### Iterator agreement -/

theorem firstLive_append (p : BTreeInternalPage) (l l' : List Nat) :
    firstLive p (l ++ l') =
      match firstLive p l with
      | some j => some j
      | none => firstLive p l' := by
  induction l with
  | nil => simp [firstLive]
  | cons i t ih =>
    by_cases h : isSlotUsed p i
    · simp [firstLive, h]
    · simp [firstLive, h, ih]

theorem reverseAux_snoc_dead (p : BTreeInternalPage) (d : Nat) (l : List Nat) (i : Nat)
    (hi : isSlotUsed p i = false) :
    reverseAux p d (l ++ [i]) = reverseAux p d l := by
  induction l with
  | nil => simp [reverseAux, hi]
  | cons j t ih =>
    by_cases hj : isSlotUsed p j
    · simp only [List.cons_append, reverseAux, hj, if_true, List.append_eq]
      rw [ih, firstLive_append]
      cases hft : firstLive p t <;> simp [hft, firstLive, hi]
    · simp only [List.cons_append, reverseAux, hj, List.append_eq]
      simp only [if_false, Bool.false_eq_true]
      exact ih

theorem reverseAux_snoc_live (p : BTreeInternalPage) (d : Nat) (l : List Nat) (i : Nat)
    (hi : isSlotUsed p i = true) :
    reverseAux p d (l ++ [i]) =
      reverseAux p (p.children.getD i 0) l ++ [entryAt p i d] := by
  induction l with
  | nil => simp [reverseAux, hi, firstLive, entryAt]
  | cons j t ih =>
    by_cases hj : isSlotUsed p j
    · simp only [List.cons_append, reverseAux, hj, if_true, List.append_eq]
      rw [ih, firstLive_append]
      cases hft : firstLive p t <;> simp [hft, firstLive, hi]
    · simp only [List.cons_append, reverseAux, hj, List.append_eq]
      simp only [if_false, Bool.false_eq_true]
      exact ih

theorem forwardAux_reverse (p : BTreeInternalPage) (l : List Nat) :
    ∀ pc, (forwardAux p pc l).reverse = reverseAux p pc l.reverse := by
  induction l with
  | nil => intro pc; simp [forwardAux, reverseAux]
  | cons i t ih =>
    intro pc
    by_cases hi : isSlotUsed p i
    · simp only [forwardAux, hi, if_true]
      rw [List.reverse_cons, ih (p.children.getD i 0)]
      rw [show (i :: t).reverse = t.reverse ++ [i] from by simp]
      rw [reverseAux_snoc_live p pc t.reverse i hi]
      simp [entryAt]
    · simp only [forwardAux, hi]
      simp only [if_false, Bool.false_eq_true]
      rw [ih pc]
      rw [show (i :: t).reverse = t.reverse ++ [i] from by simp]
      rw [reverseAux_snoc_dead p pc t.reverse i (by simpa using hi)]

theorem forwardEntries_reverse (p : BTreeInternalPage) :
    (forwardEntries p).reverse = reverseEntries p :=
  forwardAux_reverse p (List.range p.occupancy.length) p.child0

theorem forwardAux_mem (p : BTreeInternalPage) (l : List Nat) :
    ∀ pc e, e ∈ forwardAux p pc l →
      ∃ i, isSlotUsed p i = true ∧ e.recordId = some ⟨p.pid, i⟩ := by
  induction l with
  | nil => intro pc e h; simp [forwardAux] at h
  | cons i t ih =>
    intro pc e h
    by_cases hi : isSlotUsed p i
    · simp only [forwardAux, hi, if_true] at h
      rcases List.mem_cons.mp h with h | h
      · exact ⟨i, hi, by rw [h]⟩
      · exact ih _ e h
    · simp only [forwardAux, hi] at h
      simp only [if_false, Bool.false_eq_true] at h
      exact ih _ e h

/-- C6: for every occupancy pattern — all-empty and full included — the
forward iterator's entry sequence reversed equals the reverse iterator's
sequence, and both iterators yield only entries of occupied slots. -/
theorem iterator_agreement (p : BTreeInternalPage) :
    (forwardEntries p).reverse = reverseEntries p ∧
    (∀ e ∈ forwardEntries p, ∃ i, isSlotUsed p i = true ∧
      e.recordId = some ⟨p.pid, i⟩) ∧
    (∀ e ∈ reverseEntries p, ∃ i, isSlotUsed p i = true ∧
      e.recordId = some ⟨p.pid, i⟩) := by
  have hrev := forwardEntries_reverse p
  refine ⟨hrev, ?_, ?_⟩
  · intro e he
    exact forwardAux_mem p (List.range p.occupancy.length) p.child0 e he
  · intro e he
    rw [← hrev, List.mem_reverse] at he
    exact forwardAux_mem p (List.range p.occupancy.length) p.child0 e he

theorem iterator_agreement_witness :
    (forwardEntries pSample).reverse = reverseEntries pSample ∧
    (entryAt pSample 0 3 ∈ forwardEntries pSample ∧
      ∃ i, isSlotUsed pSample i = true ∧
        (entryAt pSample 0 3).recordId = some ⟨pSample.pid, i⟩) :=
  ⟨(iterator_agreement pSample).1,
   by decide,
   (iterator_agreement pSample).2.1 (entryAt pSample 0 3) (by decide)⟩

/-! ### Buffer pool eviction -/

theorem chooseVictim_all_dirty (pages : List CachedPage)
    (hdirty : ∀ q ∈ pages, q.dirty ≠ none) :
    chooseVictim pages = pages.head? := by
  unfold chooseVictim
  have hf : pages.find? (fun q => q.dirty == none) = none := by
    rw [List.find?_eq_none]
    intro q hq
    simp only [beq_iff_eq]
    exact hdirty q hq
  rw [hf]

theorem pairwise_pid_inj (l : List CachedPage)
    (h : l.Pairwise (fun a b => a.pid ≠ b.pid)) :
    ∀ a ∈ l, ∀ b ∈ l, a.pid = b.pid → a = b := by
  induction l with
  | nil => intro a ha; simp at ha
  | cons x t ih =>
    simp only [List.pairwise_cons] at h
    intro a ha b hb heq
    rcases List.mem_cons.mp ha with rfl | ha' <;> rcases List.mem_cons.mp hb with rfl | hb'
    · rfl
    · exact absurd heq (h.1 b hb')
    · exact absurd heq.symm (h.1 a ha')
    · exact ih h.2 a ha' b hb' heq

/-- C9: requesting a non-resident page from a pool that is at capacity
with every resident page dirty flushes exactly one page — the single write
through the persistence collaborator carries the victim's serialized bytes
as they are at eviction time — after which the victim is gone and the
requested page is resident; any page that leaves the cache has its bytes
in the write list, so no dirty page is discarded without being flushed. -/
theorem eviction_flush_safety (bp : BufferPool) (disk : BTreePageId → List Nat)
    (pid : BTreePageId)
    (hcap : bp.pages.length = bp.capacity) (hpos : 0 < bp.capacity)
    (hnodup : bp.pages.Pairwise (fun a b => a.pid ≠ b.pid))
    (hdirty : ∀ q ∈ bp.pages, q.dirty ≠ none)
    (hmiss : bp.resident pid = false) :
    ∃ v, chooseVictim bp.pages = some v ∧ v ∈ bp.pages ∧
      (bp.getPage disk pid).2 = [(v.pid, v.data)] ∧
      (bp.getPage disk pid).1.resident pid = true ∧
      (∀ q ∈ bp.pages, q ∉ (bp.getPage disk pid).1.pages →
        (q.pid, q.data) ∈ (bp.getPage disk pid).2) := by
  have hne : bp.pages ≠ [] := by
    intro h
    rw [h] at hcap
    simp at hcap
    omega
  obtain ⟨v, hv⟩ : ∃ v, bp.pages.head? = some v := by
    cases hpp : bp.pages with
    | nil => exact absurd hpp hne
    | cons a t => exact ⟨a, rfl⟩
  have hcv : chooseVictim bp.pages = some v := by
    rw [chooseVictim_all_dirty bp.pages hdirty, hv]
  have hvmem : v ∈ bp.pages := by
    cases hpp : bp.pages with
    | nil => exact absurd hpp hne
    | cons a t =>
      rw [hpp] at hv
      simp only [List.head?_cons, Option.some.injEq] at hv
      subst hv
      exact List.mem_cons_self a t
  have hnotlt : ¬ bp.pages.length < bp.capacity := by omega
  have hdv : (v.dirty == none) = false := by
    simp only [beq_eq_false_iff_ne, ne_eq]
    exact hdirty v hvmem
  have hgp : bp.getPage disk pid =
      ({ bp with pages := (bp.pages.filter fun q => q.pid != v.pid) ++
          [{ pid := pid, data := disk pid, dirty := none }] },
       [(v.pid, v.data)]) := by
    simp only [BufferPool.getPage, hmiss, Bool.false_eq_true, if_false, hcv]
    rw [if_neg hnotlt]
    simp [hdv]
  refine ⟨v, hcv, hvmem, by rw [hgp], ?_, ?_⟩
  · rw [hgp]
    simp [BufferPool.resident]
  · intro q hq hnot
    rw [hgp] at hnot
    rw [hgp]
    have hqf : q ∉ bp.pages.filter (fun q => q.pid != v.pid) := by
      intro hmem
      exact hnot (by simp only [List.mem_append]; exact Or.inl hmem)
    have hbne : (q.pid != v.pid) = false := by
      by_cases hb : (q.pid != v.pid) = true
      · exact absurd (List.mem_filter.mpr ⟨hq, hb⟩) hqf
      · simpa using hb
    have hpideq : q.pid = v.pid := by simpa using hbne
    have : q = v := pairwise_pid_inj bp.pages hnodup q hq v hvmem hpideq
    subst this
    simp

theorem eviction_flush_safety_witness :
    bpSample.pages.length = bpSample.capacity ∧
    ∃ v, chooseVictim bpSample.pages = some v ∧ v ∈ bpSample.pages ∧
      (bpSample.getPage diskSample ⟨1, 2⟩).2 = [(v.pid, v.data)] ∧
      (bpSample.getPage diskSample ⟨1, 2⟩).1.resident ⟨1, 2⟩ = true ∧
      (∀ q ∈ bpSample.pages, q ∉ (bpSample.getPage diskSample ⟨1, 2⟩).1.pages →
        (q.pid, q.data) ∈ (bpSample.getPage diskSample ⟨1, 2⟩).2) :=
  ⟨rfl, eviction_flush_safety bpSample diskSample ⟨1, 2⟩ rfl (by decide)
    (by simp [bpSample]) (by decide) (by decide)⟩

end DB
